import Mathlib

/-
Verification development for the input-validation engine of the repository
(file src/runpod/serverless/utils/rp_validator.py).

The embedding below translates the Python function `validate` statement by
statement.  Python dictionaries become association lists (insertion order
preserved, unique keys in any state reachable from Python).  A raised
exception (KeyError, TypeError) is modelled by a sticky `crashed` flag on the
threaded state: once set, no further statement executes, and the top-level
`validate` returns `none` instead of a result.  Fields of a schema rule that
the source reads (`type`, `required`, `default`, `constraints`) are
represented structurally; a rule entry that is not a Python dict is either a
string (candidate for `json.loads`) or an arbitrary plain value.
-/

namespace RpValidator

/-- The declared type tags: the Python type objects str, int, float, bool,
list, dict that a well-formed rule stores under the key `type`. -/
inductive TypeTag where
  | tStr
  | tInt
  | tFloat
  | tBool
  | tList
  | tDict
deriving DecidableEq

/-- Plain Python values: the payloads that appear in the input mapping, as
defaults, and as results of `json.loads`. -/
inductive Value where
  | null
  | bool (b : Bool)
  | int (n : Int)
  | float (q : Rat)
  | str (s : String)
  | list (xs : List Value)
  | dict (m : List (String × Value))

/-- Python `type(x) in [int, float]`: exact runtime type, so bool (a subclass
of int) is excluded. -/
def Value.exactNum : Value → Bool
  | .int _ => true
  | .float _ => true
  | _ => false

/-- Python `x is None`. -/
def Value.isNull : Value → Bool
  | .null => true
  | _ => false

/-- Python `isinstance(x, T)` for the six type tags; `isinstance(True, int)`
holds because bool is a subclass of int. -/
def isInst : Value → TypeTag → Bool
  | .str _, .tStr => true
  | .int _, .tInt => true
  | .bool _, .tInt => true
  | .bool _, .tBool => true
  | .float _, .tFloat => true
  | .list _, .tList => true
  | .dict _, .tDict => true
  | _, _ => false

/-- Python `float(x)` for an int or float argument (the only way the source
calls it, guarded by `type(x) in [int, float]`). -/
def Value.toFloat : Value → Value
  | .int n => .float (n : Rat)
  | .float q => .float q
  | v => v

/-- Python truthiness, used when the source branches on `rules[required]`. -/
def Value.truthy : Value → Bool
  | .null => false
  | .bool b => b
  | .int n => n != 0
  | .float q => q != 0
  | .str s => s != ""
  | .list xs => !xs.isEmpty
  | .dict m => !m.isEmpty

/-- Rendering of a type tag the way a Python f-string renders the type
object, for the invalid-type error message. -/
def TypeTag.pyRepr : TypeTag → String
  | .tStr => "<class \x27str\x27>"
  | .tInt => "<class \x27int\x27>"
  | .tFloat => "<class \x27float\x27>"
  | .tBool => "<class \x27bool\x27>"
  | .tList => "<class \x27list\x27>"
  | .tDict => "<class \x27dict\x27>"

/-- Rendering of `type(x)` the way a Python f-string renders it. -/
def Value.pyTypeRepr : Value → String
  | .null => "<class \x27NoneType\x27>"
  | .bool _ => "<class \x27bool\x27>"
  | .int _ => "<class \x27int\x27>"
  | .float _ => "<class \x27float\x27>"
  | .str _ => "<class \x27str\x27>"
  | .list _ => "<class \x27list\x27>"
  | .dict _ => "<class \x27dict\x27>"

/-- Message constant UNEXPECTED_INPUT_ERROR of the source. -/
def UNEXPECTED_INPUT_ERROR (k : String) : String :=
  "Unexpected input. " ++ k ++ " is not a valid input option."

/-- Message constant MISSING_REQUIRED_ERROR of the source. -/
def MISSING_REQUIRED_ERROR (k : String) : String :=
  k ++ " is a required input."

/-- Message constant MISSING_DEFAULT_ERROR of the source. -/
def MISSING_DEFAULT_ERROR (k : String) : String :=
  "Schema error, missing default value for " ++ k ++ "."

/-- Message constant MISSING_TYPE_ERROR of the source. -/
def MISSING_TYPE_ERROR (k : String) : String :=
  "Schema error, missing type for " ++ k ++ "."

/-- The f-string built at the invalid-type check of the source. -/
def INVALID_TYPE_ERROR (k : String) (t : TypeTag) (v : Value) : String :=
  k ++ " should be " ++ t.pyRepr ++ " type, not " ++ v.pyTypeRepr ++ "."

/-- Message constant CONSTRAINTS_ERROR of the source. -/
def CONSTRAINTS_ERROR (k : String) : String :=
  k ++ " does not meet the constraints."

/-- Message constant SCHEMA_ERROR of the source. -/
def SCHEMA_ERROR (k : String) : String :=
  "Schema error, " ++ k ++ " is not a dictionary."

/-- First-occurrence lookup in an association list (a Python dict read). -/
def lookupA {α : Type} : List (String × α) → String → Option α
  | [], _ => none
  | (k, v) :: t, key => if k = key then some v else lookupA t key

/-- Python `key in d` on a dict. -/
def containsA {α : Type} (m : List (String × α)) (key : String) : Bool :=
  (lookupA m key).isSome

/-- A Python dict write `d[key] = v`: replaces the binding in place when the
key exists, appends otherwise. -/
def updateA {α : Type} (key : String) (v : α) : List (String × α) → List (String × α)
  | [] => [(key, v)]
  | (k, w) :: t => if k = key then (key, v) :: t else (k, w) :: updateA key v t

/-- Python `s in xs` for a string s and a list xs: true when some element of
the list is that exact string (string equality; elements of other runtime
types never compare equal to a str). -/
def hasStrElem (xs : List Value) (key : String) : Bool :=
  xs.any fun x => match x with
    | .str s => s == key
    | _ => false

/-- Python `pat in s` for strings: substring containment. -/
def strContains (s pat : String) : Bool :=
  (s.splitOn pat).length != 1

/-- A structured schema rule: a Python dict whose fields are the four keys
the source reads.  The constraint is a caller-supplied predicate. -/
structure Rule where
  type? : Option TypeTag
  required? : Option Bool
  default? : Option Value
  constraints? : Option (Value → Bool)

/-- One schema entry as the caller may pass it: a structured rule dict, a
string (candidate for `json.loads`), or any other plain value (including a
plain dict of values, e.g. the result of an earlier parse). -/
inductive Entry where
  | rule (r : Rule)
  | str (s : String)
  | val (v : Value)

/-- The schema argument of `validate`: an ordered mapping from field names to
entries. -/
abbrev Schema := List (String × Entry)

/-- The raw-input argument of `validate`: an ordered mapping from field
names to values. -/
abbrev Input := List (String × Value)

/-- The two shapes `validate` can return: the validated-input dict or the
error list. -/
inductive RunResult where
  | ok (validated : Input)
  | errors (es : List String)

/-- The state the translated statements thread: the (mutable) schema object,
the raw input (never written), the working copy `validated_input`, the
accumulated `error_list`, and whether an exception has been raised. -/
structure St where
  raw : Input
  schema : Schema
  validated : Input
  errors : List String
  crashed : Bool

/-- The helper `_add_error` of the source: append one message. -/
def addErr (st : St) (m : String) : St :=
  { st with errors := st.errors ++ [m] }

/-- Pass 1 body: `if key not in schema: _add_error(...)`. -/
def checkUnexpected (st : St) (key : String) : St :=
  if st.crashed then st
  else if containsA st.schema key then st
  else addErr st (UNEXPECTED_INPUT_ERROR key)

/-- Pass 2 body: for a non-dict entry, `schema[key] = json.loads(rules)`,
catching only JSONDecodeError (modelled by the parameter J returning none).
Calling `json.loads` on a non-string raises TypeError, which the source does
not catch. -/
def normalizeEntry (J : String → Option Value) (st : St) (kv : String × Entry) : St :=
  if st.crashed then st
  else match kv.2 with
    | .rule _ => st
    | .val (.dict _) => st
    | .str s =>
        match J s with
        | some v => { st with schema := updateA kv.1 (.val v) st.schema }
        | none => addErr st (SCHEMA_ERROR kv.1)
    | .val (.str s) =>
        match J s with
        | some v => { st with schema := updateA kv.1 (.val v) st.schema }
        | none => addErr st (SCHEMA_ERROR kv.1)
    | .val _ => { st with crashed := true }

/-- Pass 3 body on a string entry: `in` is substring containment, and
indexing a string with the string key `required` raises TypeError. -/
def resolveStrEntry (st : St) (key s : String) : St :=
  let st1 := if !(strContains s "type") then addErr st (MISSING_TYPE_ERROR key) else st
  if !(strContains s "required") then addErr st1 (MISSING_REQUIRED_ERROR key)
  else { st1 with crashed := true }

/-- Pass 3 body, translated from the if/elif chain of the source.  The
second elif (required and absent and no default) is preserved even though
the first elif shadows it. -/
def resolveEntry (st : St) (kv : String × Entry) : St :=
  if st.crashed then st
  else match kv.2 with
    | .rule r =>
        let st1 := if r.type?.isNone then addErr st (MISSING_TYPE_ERROR kv.1) else st
        match r.required? with
        | none => addErr st1 (MISSING_REQUIRED_ERROR kv.1)
        | some req =>
            if req && !(containsA st.raw kv.1) then
              addErr st1 (MISSING_REQUIRED_ERROR kv.1)
            else if req && !(containsA st.raw kv.1) && r.default?.isNone then
              addErr st1 (MISSING_DEFAULT_ERROR kv.1)
            else if !req && !(containsA st.raw kv.1) && r.default?.isNone then
              addErr st1 (MISSING_DEFAULT_ERROR kv.1)
            else if !req && !(containsA st.raw kv.1) then
              match r.default? with
              | some d =>
                  { st1 with validated := updateA kv.1 ((lookupA st.raw kv.1).getD d) st1.validated }
              | none => { st1 with crashed := true }
            else st1
    | .str s => resolveStrEntry st kv.1 s
    | .val (.str s) => resolveStrEntry st kv.1 s
    | .val (.dict m) =>
        let st1 := if !(containsA m "type") then addErr st (MISSING_TYPE_ERROR kv.1) else st
        match lookupA m "required" with
        | none => addErr st1 (MISSING_REQUIRED_ERROR kv.1)
        | some rv =>
            if rv.truthy && !(containsA st.raw kv.1) then
              addErr st1 (MISSING_REQUIRED_ERROR kv.1)
            else if rv.truthy && !(containsA st.raw kv.1) && !(containsA m "default") then
              addErr st1 (MISSING_DEFAULT_ERROR kv.1)
            else if !rv.truthy && !(containsA st.raw kv.1) && !(containsA m "default") then
              addErr st1 (MISSING_DEFAULT_ERROR kv.1)
            else if !rv.truthy && !(containsA st.raw kv.1) then
              match lookupA m "default" with
              | some d =>
                  { st1 with validated := updateA kv.1 ((lookupA st.raw kv.1).getD d) st1.validated }
              | none => { st1 with crashed := true }
            else st1
    | .val (.list xs) =>
        let st1 := if !(hasStrElem xs "type") then addErr st (MISSING_TYPE_ERROR kv.1) else st
        if !(hasStrElem xs "required") then addErr st1 (MISSING_REQUIRED_ERROR kv.1)
        else { st1 with crashed := true }
    | .val _ => { st with crashed := true }

/-- Pass 4 body, translated from the final loop of the source.  Reading
`rules[type]` on a rule without a type raises KeyError; indexing
`raw_input[key]` for a key the input lacks raises KeyError; any entry that is
not a structured rule raises (string and value entries produce TypeError at
the first subscript, value dicts raise at `isinstance` or at the missing
key). -/
def checkEntry (st : St) (kv : String × Entry) : St :=
  if st.crashed then st
  else match kv.2 with
    | .rule r =>
        match r.type? with
        | none => { st with crashed := true }
        | some t =>
            let co : Option St :=
              if t = .tFloat then
                match lookupA st.raw kv.1 with
                | none => none
                | some x =>
                    some (if x.exactNum then
                            { st with validated := updateA kv.1 x.toFloat st.validated }
                          else st)
              else some st
            match co with
            | none => { st with crashed := true }
            | some st1 =>
                match lookupA st.raw kv.1 with
                | none => { st1 with crashed := true }
                | some x =>
                    let st2 :=
                      if !(isInst x t) && !(x.isNull) then
                        addErr st1 (INVALID_TYPE_ERROR kv.1 t x)
                      else st1
                    match r.constraints? with
                    | none => st2
                    | some p => if p x then st2 else addErr st2 (CONSTRAINTS_ERROR kv.1)
    | _ => { st with crashed := true }

/-- The initial state of a call: `error_list = []`,
`validated_input = raw_input.copy()`. -/
def initSt (rawInput : Input) (schema : Schema) : St :=
  { raw := rawInput, schema := schema, validated := rawInput, errors := [], crashed := false }

/-- Pass 1: the unexpected-key loop over the raw input. -/
def pass1 (st : St) : St :=
  st.raw.foldl (fun st kv => checkUnexpected st kv.1) st

/-- Pass 2: the schema-normalization loop.  It iterates the schema as it
stood at loop entry; each in-place write replaces the binding of the key
being visited, never a later one. -/
def pass2 (J : String → Option Value) (st : St) : St :=
  st.schema.foldl (normalizeEntry J) st

/-- Pass 3: the required/default loop over the (possibly normalized)
schema. -/
def pass3 (st : St) : St :=
  st.schema.foldl resolveEntry st

/-- Pass 4: the type/constraint loop over the schema. -/
def pass4 (st : St) : St :=
  st.schema.foldl checkEntry st

/-- The whole body of `validate`, as the final state of the four passes.
Passes 3 and 4 iterate the schema object as mutated by pass 2. -/
def validateSt (J : String → Option Value) (rawInput : Input) (schema : Schema) : St :=
  pass4 (pass3 (pass2 J (pass1 (initSt rawInput schema))))

/-- The function `validate` of the source: `none` when the call raises an
exception, otherwise the error list if non-empty, else the validated
input. -/
def validate (J : String → Option Value) (rawInput : Input) (schema : Schema) :
    Option RunResult :=
  let st := validateSt J rawInput schema
  if st.crashed then none
  else if st.errors.isEmpty then some (.ok st.validated)
  else some (.errors st.errors)

/-- A json.loads stand-in that parses nothing, usable at concrete inputs
whose schemas contain no serialized rules. -/
def noJson : String → Option Value := fun _ => none

/-- The tail of a pass-4 step on a structured rule, given the declared type
t and the raw value x of the field: the type check followed by the
constraint check, applied to the state st1 left by the coercion step.  Used
to state what `checkEntry` does once its subscript operations are known to
succeed. -/
def typeConstraintTail (k : String) (r : Rule) (t : TypeTag) (x : Value) (st1 : St) : St :=
  let st2 := if !(isInst x t) && !(x.isNull) then addErr st1 (INVALID_TYPE_ERROR k t x)
             else st1
  match r.constraints? with
  | none => st2
  | some p => if p x then st2 else addErr st2 (CONSTRAINTS_ERROR k)

/-- A schema field that the amended success claim quantifies over: a
structured rule carrying a type and a required marker, whose key the input
supplies with a value of the declared runtime type that meets the declared
constraint, if any. -/
def cleanField (i : Input) (k : String) (e : Entry) : Prop :=
  ∃ r t x, e = Entry.rule r ∧ r.type? = some t ∧ r.required?.isSome = true ∧
    lookupA i k = some x ∧ isInst x t = true ∧
    ∀ p, r.constraints? = some p → p x = true

/-- Schema entries on which the normalization pass cannot raise: structured
rules and plain dicts are skipped, and strings go through json.loads with
JSONDecodeError caught.  Any other value reaches json.loads and raises
TypeError. -/
def Entry.normalizable : Entry → Bool
  | .rule _ => true
  | .str _ => true
  | .val (.dict _) => true
  | .val (.str _) => true
  | .val _ => false

/-- A json.loads stand-in that parses every string as the empty JSON
object. -/
def dictJson : String → Option Value := fun _ => some (Value.dict [])

/-- The predicate `is the value a float`, distinguishing coerced from
uncoerced numbers. -/
def isFloatPred : Value → Bool
  | .float _ => true
  | _ => false

/-- The predicate `is the value non-null`. -/
def nonNullPred : Value → Bool := fun v => !v.isNull

/-- Failing input of claim C1: a schema whose rule entry is the integer 7;
json.loads(7) raises an uncaught TypeError. -/
def c1Schema : Schema := [("a", Entry.val (Value.int 7))]

/-- Failing input of claim C2: an optional integer field with default 18. -/
def c2Schema : Schema := [("age", Entry.rule ⟨some .tInt, some false, some (Value.int 18), none⟩)]

/-- Failing input of claim C3: a required float field. -/
def c3Schema : Schema := [("score", Entry.rule ⟨some .tFloat, some true, none, none⟩)]

/-- Input supplying the integer 5 for the float field of c3Schema. -/
def c3Input : Input := [("score", Value.int 5)]

/-- Failing input of claim C4: a required integer field with no default. -/
def c4Schema : Schema := [("age", Entry.rule ⟨some .tInt, some true, none, none⟩)]

/-- Counterexample schema of claim C5: an optional string field with a
default, absent from the input. -/
def c5CexSchema : Schema := [("opt", Entry.rule ⟨some .tStr, some false, some (Value.str "d"), none⟩)]

/-- Witness schema of claim C5: one required integer field. -/
def c5WSchema : Schema := [("age", Entry.rule ⟨some .tInt, some true, none, none⟩)]

/-- Witness input of claim C5. -/
def c5WInput : Input := [("age", Value.int 5)]

/-- Counterexample schema of claim C6: a required bool field, absent from
the input, which makes pass 4 raise KeyError. -/
def c6CexSchema : Schema := [("b", Entry.rule ⟨some .tBool, some true, none, none⟩)]

/-- Witness schema of claim C6: one required string field. -/
def c6WSchema : Schema := [("k", Entry.rule ⟨some .tStr, some true, none, none⟩)]

/-- Witness input of claim C6. -/
def c6WInput : Input := [("k", Value.str "v")]

/-- Counterexample schema of claim C7: a required integer field whose
constraint rejects null. -/
def c7Schema : Schema := [("a", Entry.rule ⟨some .tInt, some true, none, some nonNullPred⟩)]

/-- Input supplying null for the field of c7Schema. -/
def c7Input : Input := [("a", Value.null)]

/-- Witness rule of claim C7. -/
def c7WRule : Rule := ⟨some .tInt, some true, none, none⟩

/-- Counterexample schema of claim C8: a required float field whose
constraint accepts exactly float values. -/
def c8Schema : Schema := [("score", Entry.rule ⟨some .tFloat, some true, none, some isFloatPred⟩)]

/-- Input supplying the integer 5 for the field of c8Schema. -/
def c8Input : Input := [("score", Value.int 5)]

/-- Witness rule of claim C8. -/
def c8WRule : Rule := ⟨some .tFloat, some true, none, some isFloatPred⟩

/-- Witness schema of claim C9: one required integer field. -/
def c9Schema : Schema := [("n", Entry.rule ⟨some .tInt, some true, none, none⟩)]

/-- Witness input of claim C9. -/
def c9Input : Input := [("n", Value.int 7)]

/-- Counterexample schema of claim C10: a TypeError-raising junk entry
followed by a serialized entry, so normalization raises before reaching the
serialized entry. -/
def c10CexSchema : Schema := [("a", Entry.val (Value.int 0)), ("b", Entry.str "x")]

/-- Witness schema of claim C10: one serialized entry. -/
def c10WSchema : Schema := [("a", Entry.str "rule")]

/-! ### Association-list lemmas -/

theorem updateA_of_lookupA {α : Type} {m : List (String × α)} {k : String} {v : α}
    (h : lookupA m k = some v) : updateA k v m = m := by
  induction m with
  | nil => simp [lookupA] at h
  | cons hd tl ih =>
      unfold lookupA at h
      unfold updateA
      by_cases hk : hd.1 = k
      · rw [if_pos hk] at h ⊢
        obtain ⟨k1, v1⟩ := hd
        simp_all
      · rw [if_neg hk] at h ⊢
        rw [ih h]

theorem lookupA_updateA_ne {α : Type} {m : List (String × α)} {k k' : String} (v : α)
    (h : k' ≠ k) : lookupA (updateA k' v m) k = lookupA m k := by
  induction m with
  | nil => simp [updateA, lookupA, h]
  | cons hd tl ih =>
      unfold updateA
      by_cases hk : hd.1 = k'
      · rw [if_pos hk]
        unfold lookupA
        rw [if_neg h, if_neg (hk ▸ h)]
      · rw [if_neg hk]
        unfold lookupA
        by_cases hk2 : hd.1 = k
        · rw [if_pos hk2, if_pos hk2]
        · rw [if_neg hk2, if_neg hk2, ih]

/-! ### Frame lemmas for the four pass bodies -/

@[simp] theorem addErr_raw (st : St) (m : String) : (addErr st m).raw = st.raw := rfl

@[simp] theorem addErr_schema (st : St) (m : String) : (addErr st m).schema = st.schema := rfl

@[simp] theorem addErr_validated (st : St) (m : String) :
    (addErr st m).validated = st.validated := rfl

@[simp] theorem addErr_crashed (st : St) (m : String) : (addErr st m).crashed = st.crashed := rfl

@[simp] theorem addErr_errors (st : St) (m : String) :
    (addErr st m).errors = st.errors ++ [m] := rfl

theorem checkUnexpected_sticky (st : St) (k : String) (h : st.crashed = true) :
    checkUnexpected st k = st := by
  simp [checkUnexpected, h]

theorem checkUnexpected_raw (st : St) (k : String) : (checkUnexpected st k).raw = st.raw := by
  unfold checkUnexpected
  split
  · rfl
  · split <;> rfl

theorem checkUnexpected_schema (st : St) (k : String) :
    (checkUnexpected st k).schema = st.schema := by
  unfold checkUnexpected
  split
  · rfl
  · split <;> rfl

theorem checkUnexpected_validated (st : St) (k : String) :
    (checkUnexpected st k).validated = st.validated := by
  unfold checkUnexpected
  split
  · rfl
  · split <;> rfl

theorem checkUnexpected_crashed (st : St) (k : String) :
    (checkUnexpected st k).crashed = st.crashed := by
  unfold checkUnexpected
  split
  · rfl
  · split <;> rfl

theorem checkUnexpected_errors (st : St) (k : String) :
    ∃ d, (checkUnexpected st k).errors = st.errors ++ d := by
  unfold checkUnexpected
  split
  · exact ⟨[], by simp⟩
  · split
    · exact ⟨[], by simp⟩
    · exact ⟨[UNEXPECTED_INPUT_ERROR k], rfl⟩

theorem normalizeEntry_sticky (J : String → Option Value) (st : St) (kv : String × Entry)
    (h : st.crashed = true) : normalizeEntry J st kv = st := by
  simp [normalizeEntry, h]

theorem normalizeEntry_raw (J : String → Option Value) (st : St) (kv : String × Entry) :
    (normalizeEntry J st kv).raw = st.raw := by
  unfold normalizeEntry
  split
  · rfl
  · split <;> first
      | rfl
      | (split <;> rfl)

theorem normalizeEntry_validated (J : String → Option Value) (st : St) (kv : String × Entry) :
    (normalizeEntry J st kv).validated = st.validated := by
  unfold normalizeEntry
  split
  · rfl
  · split <;> first
      | rfl
      | (split <;> rfl)

theorem normalizeEntry_errors (J : String → Option Value) (st : St) (kv : String × Entry) :
    ∃ d, (normalizeEntry J st kv).errors = st.errors ++ d := by
  unfold normalizeEntry
  split
  · exact ⟨[], by simp⟩
  · split <;> first
      | (split
         · exact ⟨[], by simp⟩
         · exact ⟨[SCHEMA_ERROR _], rfl⟩)
      | exact ⟨[], by simp⟩

theorem resolveStrEntry_raw (st : St) (k s : String) : (resolveStrEntry st k s).raw = st.raw := by
  unfold resolveStrEntry
  repeat' split
  all_goals rfl

theorem resolveStrEntry_schema (st : St) (k s : String) :
    (resolveStrEntry st k s).schema = st.schema := by
  unfold resolveStrEntry
  repeat' split
  all_goals rfl

theorem resolveStrEntry_validated (st : St) (k s : String) :
    (resolveStrEntry st k s).validated = st.validated := by
  unfold resolveStrEntry
  repeat' split
  all_goals rfl

theorem resolveStrEntry_errors (st : St) (k s : String) :
    ∃ d, (resolveStrEntry st k s).errors = st.errors ++ d := by
  unfold resolveStrEntry
  repeat' split
  all_goals first
    | exact ⟨[], (List.append_nil _).symm⟩
    | (simp only [addErr_errors, List.append_assoc]; exact ⟨_, rfl⟩)

theorem resolveEntry_sticky (st : St) (kv : String × Entry) (h : st.crashed = true) :
    resolveEntry st kv = st := by
  simp [resolveEntry, h]

theorem resolveEntry_raw (st : St) (kv : String × Entry) :
    (resolveEntry st kv).raw = st.raw := by
  unfold resolveEntry
  repeat' split
  all_goals simp [resolveStrEntry_raw]

theorem resolveEntry_schema (st : St) (kv : String × Entry) :
    (resolveEntry st kv).schema = st.schema := by
  unfold resolveEntry
  repeat' split
  all_goals simp [resolveStrEntry_schema]

theorem resolveEntry_errors (st : St) (kv : String × Entry) :
    ∃ d, (resolveEntry st kv).errors = st.errors ++ d := by
  unfold resolveEntry
  repeat' split
  all_goals first
    | exact resolveStrEntry_errors _ _ _
    | exact ⟨[], (List.append_nil _).symm⟩
    | (simp only [addErr_errors, List.append_assoc]; exact ⟨_, rfl⟩)

theorem checkEntry_sticky (st : St) (kv : String × Entry) (h : st.crashed = true) :
    checkEntry st kv = st := by
  simp [checkEntry, h]

theorem checkEntry_raw (st : St) (kv : String × Entry) : (checkEntry st kv).raw = st.raw := by
  unfold checkEntry
  repeat' split
  all_goals simp

theorem checkEntry_schema (st : St) (kv : String × Entry) :
    (checkEntry st kv).schema = st.schema := by
  unfold checkEntry
  repeat' split
  all_goals simp

theorem checkEntry_errors (st : St) (kv : String × Entry) :
    ∃ d, (checkEntry st kv).errors = st.errors ++ d := by
  unfold checkEntry
  repeat' split
  all_goals first
    | exact ⟨[], (List.append_nil _).symm⟩
    | (simp only [addErr_errors, List.append_assoc]; exact ⟨_, rfl⟩)

/-! ### Generic fold lemmas -/

theorem foldl_preserves {β γ : Type} (g : St → γ) (f : St → β → St)
    (hf : ∀ st b, g (f st b) = g st) (l : List β) (st : St) :
    g (l.foldl f st) = g st := by
  induction l generalizing st with
  | nil => rfl
  | cons x t ih => rw [List.foldl_cons, ih, hf]

theorem foldl_sticky {β : Type} (f : St → β → St)
    (hf : ∀ st b, st.crashed = true → f st b = st) (l : List β) (st : St)
    (h : st.crashed = true) : l.foldl f st = st := by
  induction l with
  | nil => rfl
  | cons x t ih => rw [List.foldl_cons, hf st x h, ih]

theorem foldl_crashed_false {β : Type} (f : St → β → St)
    (hf : ∀ st b, st.crashed = true → f st b = st) (l : List β) (st : St)
    (h : (l.foldl f st).crashed = false) : st.crashed = false := by
  by_contra hc
  rw [Bool.not_eq_false] at hc
  have : l.foldl f st = st := by
    induction l with
    | nil => rfl
    | cons x t ih =>
        rw [List.foldl_cons, hf st x hc] at h ⊢
        exact ih h
  rw [this, hc] at h
  exact absurd h (by simp)

theorem foldl_errors_append {β : Type} (f : St → β → St)
    (hf : ∀ st b, ∃ d, (f st b).errors = st.errors ++ d) (l : List β) (st : St) :
    ∃ d, (l.foldl f st).errors = st.errors ++ d := by
  induction l generalizing st with
  | nil => exact ⟨[], (List.append_nil _).symm⟩
  | cons x t ih =>
      obtain ⟨d, hd⟩ := hf st x
      obtain ⟨D, hD⟩ := ih (f st x)
      exact ⟨d ++ D, by rw [List.foldl_cons, hD, hd, List.append_assoc]⟩

/-! ### Success-path lemmas -/

theorem float_inst_id {x : Value} (h : isInst x .tFloat = true) :
    x.exactNum = true ∧ x.toFloat = x := by
  cases x <;> simp_all [isInst, Value.exactNum, Value.toFloat]

theorem checkUnexpected_of_contains (st : St) (k : String)
    (h : containsA st.schema k = true) : checkUnexpected st k = st := by
  simp [checkUnexpected, h]

theorem loop1_id (l : Input) (st : St)
    (h : ∀ kv ∈ l, containsA st.schema kv.1 = true) :
    l.foldl (fun st kv => checkUnexpected st kv.1) st = st := by
  induction l with
  | nil => rfl
  | cons x t ih =>
      rw [List.foldl_cons, checkUnexpected_of_contains st x.1 (h x (by simp))]
      exact ih fun kv hm => h kv (by simp [hm])

theorem normalizeEntry_of_rule (J : String → Option Value) (st : St) (k : String) (r : Rule) :
    normalizeEntry J st (k, .rule r) = st := by
  unfold normalizeEntry
  split <;> rfl

theorem loop2_id (J : String → Option Value) (l : Schema) (st : St)
    (h : ∀ kv ∈ l, ∃ r, kv.2 = Entry.rule r) :
    l.foldl (normalizeEntry J) st = st := by
  induction l with
  | nil => rfl
  | cons x t ih =>
      obtain ⟨r, hr⟩ := h x (by simp)
      obtain ⟨k, e⟩ := x
      cases hr
      rw [List.foldl_cons, normalizeEntry_of_rule]
      exact ih fun kv hm => h kv (by simp [hm])

theorem resolveEntry_id (st : St) (k : String) (r : Rule) (t : TypeTag) (req : Bool)
    (ht : r.type? = some t) (hq : r.required? = some req)
    (hc : containsA st.raw k = true) :
    resolveEntry st (k, .rule r) = st := by
  unfold resolveEntry
  split
  · rfl
  · simp [ht, hq, hc]

theorem loop3_id (l : Schema) (st : St)
    (h : ∀ kv ∈ l, ∃ r t req, kv.2 = Entry.rule r ∧ r.type? = some t ∧
      r.required? = some req ∧ containsA st.raw kv.1 = true) :
    l.foldl resolveEntry st = st := by
  induction l with
  | nil => rfl
  | cons x t ih =>
      obtain ⟨r, ty, req, hr, hty, hreq, hc⟩ := h x (by simp)
      obtain ⟨k, e⟩ := x
      cases hr
      rw [List.foldl_cons, resolveEntry_id st k r ty req hty hreq hc]
      exact ih fun kv hm => h kv (by simp [hm])

theorem checkEntry_id (st : St) (k : String) (r : Rule) (t : TypeTag) (x : Value)
    (ht : r.type? = some t) (hx : lookupA st.raw k = some x) (hi : isInst x t = true)
    (hp : ∀ p, r.constraints? = some p → p x = true)
    (hvr : st.validated = st.raw) :
    checkEntry st (k, .rule r) = st := by
  unfold checkEntry
  split
  · rfl
  · by_cases hf : t = .tFloat
    · subst hf
      obtain ⟨hn, he⟩ := float_inst_id hi
      have hup : updateA k x st.validated = st.validated :=
        updateA_of_lookupA (show lookupA st.validated k = some x by rw [hvr]; exact hx)
      cases hcp : r.constraints? with
      | none => simp [ht, hx, hn, he, hup, hi, hcp]
      | some p => simp [ht, hx, hn, he, hup, hi, hcp, hp p hcp]
    · cases hcp : r.constraints? with
      | none => simp [ht, hx, hi, hf, hcp]
      | some p => simp [ht, hx, hi, hf, hcp, hp p hcp]

theorem loop4_id (l : Schema) (st : St)
    (h : ∀ kv ∈ l, ∃ r t x, kv.2 = Entry.rule r ∧ r.type? = some t ∧
      lookupA st.raw kv.1 = some x ∧ isInst x t = true ∧
      (∀ p, r.constraints? = some p → p x = true))
    (hvr : st.validated = st.raw) :
    l.foldl checkEntry st = st := by
  induction l with
  | nil => rfl
  | cons y t ih =>
      obtain ⟨r, ty, x, hr, hty, hx, hi, hp⟩ := h y (by simp)
      obtain ⟨k, e⟩ := y
      cases hr
      rw [List.foldl_cons, checkEntry_id st k r ty x hty hx hi hp hvr]
      exact ih fun kv hm => h kv (by simp [hm])

/-! ### Pass-level lemmas -/

theorem pass1_raw (st : St) : (pass1 st).raw = st.raw := by
  unfold pass1
  exact foldl_preserves St.raw _ (fun st kv => checkUnexpected_raw st kv.1) st.raw st

theorem pass1_schema (st : St) : (pass1 st).schema = st.schema := by
  unfold pass1
  exact foldl_preserves St.schema _ (fun st kv => checkUnexpected_schema st kv.1) st.raw st

theorem pass1_validated (st : St) : (pass1 st).validated = st.validated := by
  unfold pass1
  exact foldl_preserves St.validated _ (fun st kv => checkUnexpected_validated st kv.1) st.raw st

theorem pass1_crashed (st : St) : (pass1 st).crashed = st.crashed := by
  unfold pass1
  exact foldl_preserves St.crashed _ (fun st kv => checkUnexpected_crashed st kv.1) st.raw st

theorem pass1_errors (st : St) : ∃ d, (pass1 st).errors = st.errors ++ d := by
  unfold pass1
  exact foldl_errors_append _ (fun st kv => checkUnexpected_errors st kv.1) st.raw st

theorem pass2_raw (J : String → Option Value) (st : St) : (pass2 J st).raw = st.raw := by
  unfold pass2
  exact foldl_preserves St.raw _ (normalizeEntry_raw J) st.schema st

theorem pass2_validated (J : String → Option Value) (st : St) :
    (pass2 J st).validated = st.validated := by
  unfold pass2
  exact foldl_preserves St.validated _ (normalizeEntry_validated J) st.schema st

theorem pass2_errors (J : String → Option Value) (st : St) :
    ∃ d, (pass2 J st).errors = st.errors ++ d := by
  unfold pass2
  exact foldl_errors_append _ (normalizeEntry_errors J) st.schema st

theorem pass2_crashed_false (J : String → Option Value) (st : St)
    (h : (pass2 J st).crashed = false) : st.crashed = false := by
  unfold pass2 at h
  exact foldl_crashed_false _ (normalizeEntry_sticky J) st.schema st h

theorem pass3_raw (st : St) : (pass3 st).raw = st.raw := by
  unfold pass3
  exact foldl_preserves St.raw _ resolveEntry_raw st.schema st

theorem pass3_schema (st : St) : (pass3 st).schema = st.schema := by
  unfold pass3
  exact foldl_preserves St.schema _ resolveEntry_schema st.schema st

theorem pass3_errors (st : St) : ∃ d, (pass3 st).errors = st.errors ++ d := by
  unfold pass3
  exact foldl_errors_append _ resolveEntry_errors st.schema st

theorem pass3_crashed_false (st : St) (h : (pass3 st).crashed = false) :
    st.crashed = false := by
  unfold pass3 at h
  exact foldl_crashed_false _ resolveEntry_sticky st.schema st h

theorem pass4_raw (st : St) : (pass4 st).raw = st.raw := by
  unfold pass4
  exact foldl_preserves St.raw _ checkEntry_raw st.schema st

theorem pass4_schema (st : St) : (pass4 st).schema = st.schema := by
  unfold pass4
  exact foldl_preserves St.schema _ checkEntry_schema st.schema st

theorem pass4_errors (st : St) : ∃ d, (pass4 st).errors = st.errors ++ d := by
  unfold pass4
  exact foldl_errors_append _ checkEntry_errors st.schema st

theorem pass4_crashed_false (st : St) (h : (pass4 st).crashed = false) :
    st.crashed = false := by
  unfold pass4 at h
  exact foldl_crashed_false _ checkEntry_sticky st.schema st h

theorem validateSt_raw (J : String → Option Value) (i : Input) (s : Schema) :
    (validateSt J i s).raw = i := by
  unfold validateSt
  rw [pass4_raw, pass3_raw, pass2_raw, pass1_raw]
  rfl

theorem pass1_id (st : St) (h : ∀ kv ∈ st.raw, containsA st.schema kv.1 = true) :
    pass1 st = st := by
  unfold pass1
  exact loop1_id st.raw st h

theorem pass2_id (J : String → Option Value) (st : St)
    (h : ∀ kv ∈ st.schema, ∃ r, kv.2 = Entry.rule r) : pass2 J st = st := by
  unfold pass2
  exact loop2_id J st.schema st h

theorem pass3_id (st : St)
    (h : ∀ kv ∈ st.schema, ∃ r t req, kv.2 = Entry.rule r ∧ r.type? = some t ∧
      r.required? = some req ∧ containsA st.raw kv.1 = true) : pass3 st = st := by
  unfold pass3
  exact loop3_id st.schema st h

theorem pass4_id (st : St)
    (h : ∀ kv ∈ st.schema, ∃ r t x, kv.2 = Entry.rule r ∧ r.type? = some t ∧
      lookupA st.raw kv.1 = some x ∧ isInst x t = true ∧
      (∀ p, r.constraints? = some p → p x = true))
    (hvr : st.validated = st.raw) : pass4 st = st := by
  unfold pass4
  exact loop4_id st.schema st h hvr

theorem validateSt_clean (J : String → Option Value) (i : Input) (s : Schema)
    (h1 : ∀ kv ∈ s, cleanField i kv.1 kv.2)
    (h2 : ∀ kv ∈ i, containsA s kv.1 = true) :
    validateSt J i s = initSt i s := by
  have e1 : pass1 (initSt i s) = initSt i s := pass1_id _ h2
  have e2 : pass2 J (initSt i s) = initSt i s := by
    refine pass2_id J _ fun kv hm => ?_
    obtain ⟨r, t, x, he, _⟩ := h1 kv hm
    exact ⟨r, he⟩
  have e3 : pass3 (initSt i s) = initSt i s := by
    refine pass3_id _ fun kv hm => ?_
    obtain ⟨r, t, x, he, ht, hq, hx, hi, hp⟩ := h1 kv hm
    obtain ⟨req, hreq⟩ := Option.isSome_iff_exists.mp hq
    exact ⟨r, t, req, he, ht, hreq, by simp [initSt, containsA, hx]⟩
  have e4 : pass4 (initSt i s) = initSt i s := by
    refine pass4_id _ (fun kv hm => ?_) rfl
    obtain ⟨r, t, x, he, ht, hq, hx, hi, hp⟩ := h1 kv hm
    exact ⟨r, t, x, he, ht, hx, hi, hp⟩
  unfold validateSt
  rw [e1, e2, e3, e4]

/-! ### The shape of a pass-4 step on a structured rule -/

theorem checkEntry_rule_eq (st : St) (k : String) (r : Rule) (t : TypeTag) (x : Value)
    (hc : st.crashed = false) (ht : r.type? = some t) (hx : lookupA st.raw k = some x) :
    checkEntry st (k, .rule r) =
      typeConstraintTail k r t x
        (if t = .tFloat then
          (if x.exactNum then { st with validated := updateA k x.toFloat st.validated }
           else st)
         else st) := by
  unfold checkEntry typeConstraintTail
  rw [if_neg (by rw [hc]; exact Bool.false_ne_true)]
  by_cases hf : t = .tFloat
  · simp only [ht, hx, hf, if_true, if_pos]
  · simp only [ht, hx, hf, if_false, if_neg, ite_false]

theorem typeConstraintTail_validated (k : String) (r : Rule) (t : TypeTag) (x : Value)
    (st1 : St) : (typeConstraintTail k r t x st1).validated = st1.validated := by
  unfold typeConstraintTail
  repeat' split
  all_goals simp

theorem typeConstraintTail_crashed (k : String) (r : Rule) (t : TypeTag) (x : Value)
    (st1 : St) : (typeConstraintTail k r t x st1).crashed = st1.crashed := by
  unfold typeConstraintTail
  repeat' split
  all_goals simp

theorem typeConstraintTail_errors (k : String) (r : Rule) (t : TypeTag) (x : Value)
    (st1 : St) :
    (typeConstraintTail k r t x st1).errors =
      st1.errors
        ++ (if !(isInst x t) && !(x.isNull) then [INVALID_TYPE_ERROR k t x] else [])
        ++ (match r.constraints? with
            | none => []
            | some p => if p x then [] else [CONSTRAINTS_ERROR k]) := by
  unfold typeConstraintTail
  repeat' split
  all_goals simp

/-! ### Crash inversion and idempotence machinery -/

theorem checkEntry_nocrash_inv (st : St) (kv : String × Entry)
    (hc : st.crashed = false) (h : (checkEntry st kv).crashed = false) :
    ∃ r t x, kv.2 = Entry.rule r ∧ r.type? = some t ∧ lookupA st.raw kv.1 = some x := by
  obtain ⟨k, e⟩ := kv
  cases e with
  | rule r =>
      cases ht : r.type? with
      | none => simp [checkEntry, hc, ht] at h
      | some t =>
          cases hx : lookupA st.raw k with
          | none =>
              by_cases hf : t = .tFloat
              · simp [checkEntry, hc, ht, hx, hf] at h
              · simp [checkEntry, hc, ht, hx, hf] at h
          | some x => exact ⟨r, t, x, rfl, ht, rfl⟩
  | str s => simp [checkEntry, hc] at h
  | val v => simp [checkEntry, hc] at h

theorem loop4_nocrash_entries (l : Schema) (st : St)
    (h : (l.foldl checkEntry st).crashed = false) :
    ∀ kv ∈ l, ∃ r t x, kv.2 = Entry.rule r ∧ r.type? = some t ∧
      lookupA st.raw kv.1 = some x := by
  induction l generalizing st with
  | nil => intro kv hm; exact absurd hm (by simp)
  | cons y tl ih =>
      intro kv hm
      rw [List.foldl_cons] at h
      have hc : st.crashed = false :=
        foldl_crashed_false checkEntry checkEntry_sticky (y :: tl) st (by rw [List.foldl_cons]; exact h)
      have hc' : (checkEntry st y).crashed = false :=
        foldl_crashed_false checkEntry checkEntry_sticky tl (checkEntry st y) h
      rcases List.mem_cons.mp hm with hEq | hTl
      · subst hEq
        exact checkEntry_nocrash_inv st kv hc hc'
      · have := ih (checkEntry st y) h kv hTl
        rwa [checkEntry_raw] at this

theorem pass4_nocrash_entries (st : St) (h : (pass4 st).crashed = false) :
    ∀ kv ∈ st.schema, ∃ r t x, kv.2 = Entry.rule r ∧ r.type? = some t ∧
      lookupA st.raw kv.1 = some x := by
  unfold pass4 at h
  exact loop4_nocrash_entries st.schema st h

theorem resolveEntry_validated_of_present (st : St) (kv : String × Entry)
    (h : containsA st.raw kv.1 = true) :
    (resolveEntry st kv).validated = st.validated := by
  unfold resolveEntry resolveStrEntry
  repeat' split
  all_goals simp_all

theorem loop3_validated_of_present (l : Schema) (st : St)
    (h : ∀ kv ∈ l, containsA st.raw kv.1 = true) :
    (l.foldl resolveEntry st).validated = st.validated := by
  induction l generalizing st with
  | nil => rfl
  | cons y tl ih =>
      rw [List.foldl_cons]
      rw [ih (resolveEntry st y) fun kv hm => by
        rw [resolveEntry_raw]; exact h kv (by simp [hm])]
      exact resolveEntry_validated_of_present st y (h y (by simp))

theorem isNull_of_exactNum {x : Value} (h : x.exactNum = true) : x.isNull = false := by
  cases x <;> simp_all [Value.exactNum, Value.isNull]

theorem checkEntry_validated_stable (st : St) (kv : String × Entry)
    (hc : st.crashed = false)
    (hcr : (checkEntry st kv).crashed = false)
    (he : (checkEntry st kv).errors = st.errors)
    (hv : st.validated = st.raw) :
    (checkEntry st kv).validated = st.raw := by
  obtain ⟨r, t, x, hr, ht, hx⟩ := checkEntry_nocrash_inv st kv hc hcr
  obtain ⟨k, e⟩ := kv
  have hr' : e = Entry.rule r := hr
  subst hr'
  rw [checkEntry_rule_eq st k r t x hc ht hx] at he ⊢
  rw [typeConstraintTail_validated]
  by_cases hf : t = .tFloat
  · by_cases hn : x.exactNum = true
    · subst hf
      rw [typeConstraintTail_errors] at he
      have hst1e :
          (if (TypeTag.tFloat = TypeTag.tFloat) then
            (if x.exactNum then { st with validated := updateA k x.toFloat st.validated }
             else st)
           else st).errors = st.errors := by
        repeat' split
        all_goals rfl
      rw [hst1e] at he
      by_cases hbad : (!(isInst x .tFloat) && !(x.isNull)) = true
      · exfalso
        rw [if_pos hbad] at he
        have hlen := congrArg List.length he
        simp [List.length_append] at hlen
      · have hinst : isInst x .tFloat = true := by
          by_cases hI : isInst x .tFloat = true
          · exact hI
          · rw [Bool.not_eq_true] at hI
            exact absurd (by rw [hI, isNull_of_exactNum hn]; rfl) hbad
        obtain ⟨hn', he'⟩ := float_inst_id hinst
        rw [if_pos rfl, if_pos hn, he']
        show (updateA k x st.validated) = st.raw
        rw [updateA_of_lookupA (show lookupA st.validated k = some x by rw [hv]; exact hx), hv]
    · rw [if_pos hf, if_neg hn]
      exact hv
  · rw [if_neg hf]
    exact hv

theorem loop4_validated_stable (l : Schema) (st : St)
    (hc : st.crashed = false) (hv : st.validated = st.raw)
    (hcr : (l.foldl checkEntry st).crashed = false)
    (he : (l.foldl checkEntry st).errors = st.errors) :
    (l.foldl checkEntry st).validated = st.raw := by
  induction l generalizing st with
  | nil => exact hv
  | cons y tl ih =>
      rw [List.foldl_cons] at hcr he ⊢
      have hc1 : (checkEntry st y).crashed = false :=
        foldl_crashed_false checkEntry checkEntry_sticky tl (checkEntry st y) hcr
      have he1 : (checkEntry st y).errors = st.errors := by
        obtain ⟨d, hd⟩ := checkEntry_errors st y
        obtain ⟨D, hD⟩ := foldl_errors_append checkEntry checkEntry_errors tl (checkEntry st y)
        rw [hD, hd, List.append_assoc] at he
        have hlen := congrArg List.length he
        simp only [List.length_append] at hlen
        have hd0 : d = [] := List.length_eq_zero.mp (by omega)
        rw [hd, hd0, List.append_nil]
      have hstep := checkEntry_validated_stable st y hc hc1 he1 hv
      have hraw : (checkEntry st y).raw = st.raw := checkEntry_raw st y
      have := ih (checkEntry st y) hc1 (by rw [hstep, hraw]) hcr (by rw [he, he1])
      rw [this, hraw]

theorem validate_ok_inv (J : String → Option Value) (i v : Input) (s : Schema)
    (h : validate J i s = some (RunResult.ok v)) :
    (validateSt J i s).crashed = false ∧ (validateSt J i s).errors = [] ∧
      (validateSt J i s).validated = v := by
  simp only [validate] at h
  by_cases hc : (validateSt J i s).crashed = true
  · rw [if_pos hc] at h
    exact absurd h (by simp)
  · rw [Bool.not_eq_true] at hc
    rw [if_neg (by rw [hc]; exact Bool.false_ne_true)] at h
    by_cases hE : (validateSt J i s).errors.isEmpty = true
    · rw [if_pos hE] at h
      simp only [Option.some.injEq, RunResult.ok.injEq] at h
      exact ⟨hc, List.isEmpty_iff.mp hE, h⟩
    · rw [if_neg hE] at h
      exact absurd h (by simp)

theorem validateSt_ok_validated (J : String → Option Value) (i : Input) (s : Schema)
    (hc : (validateSt J i s).crashed = false)
    (he : (validateSt J i s).errors = []) :
    (validateSt J i s).validated = i := by
  have hval : validateSt J i s = pass4 (pass3 (pass2 J (pass1 (initSt i s)))) := rfl
  set st1 := pass1 (initSt i s) with hst1
  set st2 := pass2 J st1 with hst2
  set st3 := pass3 st2 with hst3
  rw [hval] at hc he ⊢
  have hr1 : st1.raw = i := by rw [hst1, pass1_raw]; rfl
  have hr2 : st2.raw = i := by rw [hst2, pass2_raw, hr1]
  have hr3 : st3.raw = i := by rw [hst3, pass3_raw, hr2]
  have hc3 : st3.crashed = false := pass4_crashed_false st3 hc
  obtain ⟨d, hd⟩ := pass4_errors st3
  have hnil := List.append_eq_nil.mp (hd ▸ he)
  have he3 : st3.errors = [] := hnil.1
  have hs32 : st3.schema = st2.schema := by rw [hst3]; exact pass3_schema st2
  have hent := pass4_nocrash_entries st3 hc
  have hv1 : st1.validated = i := by rw [hst1, pass1_validated]; rfl
  have hv2 : st2.validated = i := by rw [hst2, pass2_validated, hv1]
  have hv3 : st3.validated = i := by
    rw [hst3]
    show (pass3 st2).validated = i
    unfold pass3
    rw [loop3_validated_of_present st2.schema st2 ?_, hv2]
    intro kv hm
    obtain ⟨r, t, x, _, _, hx⟩ := hent kv (hs32 ▸ hm)
    have hx2 : lookupA st2.raw kv.1 = some x := by rw [hr2, ← hr3]; exact hx
    rw [containsA, hx2]
    rfl
  have hfinal : (pass4 st3).validated = st3.raw := by
    show (st3.schema.foldl checkEntry st3).validated = st3.raw
    refine loop4_validated_stable st3.schema st3 hc3 ?_ ?_ ?_
    · rw [hv3, hr3]
    · exact hc
    · show (st3.schema.foldl checkEntry st3).errors = st3.errors
      rw [he3]
      exact he
  rw [hfinal, hr3]

/-! ### Normalization-pass lemmas for the schema-mutation claim -/

theorem lookupA_updateA_self {α : Type} (m : List (String × α)) (k : String) (v : α) :
    lookupA (updateA k v m) k = some v := by
  induction m with
  | nil => simp [updateA, lookupA]
  | cons y tl ih =>
      unfold updateA
      by_cases h : y.1 = k
      · rw [if_pos h]
        unfold lookupA
        rw [if_pos rfl]
      · rw [if_neg h]
        unfold lookupA
        rw [if_neg h]
        exact ih

theorem lookupA_of_mem_nodup {α : Type} {l : List (String × α)} {k : String} {a : α}
    (hnd : (l.map Prod.fst).Nodup) (hm : (k, a) ∈ l) : lookupA l k = some a := by
  induction l with
  | nil => simp at hm
  | cons y tl ih =>
      rw [List.map_cons, List.nodup_cons] at hnd
      rcases List.mem_cons.mp hm with hEq | hTl
      · rw [← hEq]
        unfold lookupA
        rw [if_pos rfl]
      · unfold lookupA
        have hne : y.1 ≠ k := by
          intro hk
          exact hnd.1 (hk ▸ List.mem_map_of_mem Prod.fst hTl)
        rw [if_neg hne]
        exact ih hnd.2 hTl

theorem normalizeEntry_schema_shape (J : String → Option Value) (st : St)
    (kv : String × Entry) :
    (normalizeEntry J st kv).schema = st.schema ∨
    ∃ w, (normalizeEntry J st kv).schema = updateA kv.1 w st.schema := by
  unfold normalizeEntry
  repeat' split
  all_goals first
    | (left; rfl)
    | (right; exact ⟨_, rfl⟩)

theorem normalizeEntry_nocrash (J : String → Option Value) (st : St) (kv : String × Entry)
    (hok : kv.2.normalizable = true) (hc : st.crashed = false) :
    (normalizeEntry J st kv).crashed = false := by
  obtain ⟨k, e⟩ := kv
  cases e with
  | rule r => simp [normalizeEntry, hc]
  | str s => cases hj : J s <;> simp [normalizeEntry, hc, hj]
  | val v =>
      cases v with
      | dict m => simp [normalizeEntry, hc]
      | str s => cases hj : J s <;> simp [normalizeEntry, hc, hj]
      | null => simp [Entry.normalizable] at hok
      | bool b => simp [Entry.normalizable] at hok
      | int n => simp [Entry.normalizable] at hok
      | float q => simp [Entry.normalizable] at hok
      | list xs => simp [Entry.normalizable] at hok

theorem loop2_lookup_preserved (J : String → Option Value) (l : Schema) (st : St) (k : String)
    (hkeys : ∀ kv ∈ l, kv.1 ≠ k) :
    lookupA (l.foldl (normalizeEntry J) st).schema k = lookupA st.schema k := by
  induction l generalizing st with
  | nil => rfl
  | cons y tl ih =>
      rw [List.foldl_cons]
      rw [ih (normalizeEntry J st y) fun kv hm => hkeys kv (by simp [hm])]
      rcases normalizeEntry_schema_shape J st y with hsh | ⟨w, hsh⟩
      · rw [hsh]
      · rw [hsh, lookupA_updateA_ne w (hkeys y (by simp))]

theorem loop2_parses (J : String → Option Value) (l : Schema) (st : St)
    (k str : String) (v : Value)
    (hcr : st.crashed = false)
    (hok : ∀ kv ∈ l, kv.2.normalizable = true)
    (hnd : (l.map Prod.fst).Nodup)
    (hmem : (k, Entry.str str) ∈ l)
    (hj : J str = some v) :
    lookupA (l.foldl (normalizeEntry J) st).schema k = some (Entry.val v) := by
  induction l generalizing st with
  | nil => simp at hmem
  | cons y tl ih =>
      rw [List.foldl_cons]
      rw [List.map_cons, List.nodup_cons] at hnd
      rcases List.mem_cons.mp hmem with hEq | hTl
      · have hy : y = (k, Entry.str str) := hEq.symm
        subst hy
        have hstep : (normalizeEntry J st (k, Entry.str str)).schema =
            updateA k (Entry.val v) st.schema := by
          simp [normalizeEntry, hcr, hj]
        rw [loop2_lookup_preserved J tl _ k fun kv hm hk =>
          hnd.1 (by show k ∈ List.map Prod.fst tl
                    rw [← hk]
                    exact List.mem_map_of_mem Prod.fst hm)]
        rw [hstep]
        exact lookupA_updateA_self st.schema k (Entry.val v)
      · have hkne : y.1 ≠ k := by
          intro hk
          exact hnd.1 (hk ▸ List.mem_map_of_mem Prod.fst hTl)
        have hstep_nc : (normalizeEntry J st y).crashed = false :=
          normalizeEntry_nocrash J st y (hok y (by simp)) hcr
        exact ih (normalizeEntry J st y) hstep_nc
          (fun kv hm => hok kv (by simp [hm])) hnd.2 hTl

/-! ### Coercion-step helper -/

theorem coercion_errors (st : St) (k : String) (x : Value) (t : TypeTag) :
    (if t = .tFloat then
      (if x.exactNum then { st with validated := updateA k x.toFloat st.validated } else st)
     else st).errors = st.errors := by
  repeat' split
  all_goals rfl

/-! ### Claim theorems -/

/-- C1: the claim that validate never raises a control-flow exception fails
on the code: for the schema mapping field a to the integer 7, json.loads(7)
raises an uncaught TypeError, so validate returns no result at all instead
of a result variant with a collected message. -/
theorem c1_validate_raises : validate noJson [] c1Schema = none := rfl

/-- C2: the claim fails on the code: for the optional integer field age with
default 18 and an empty input, the default is written into the working copy,
but the type-check loop then subscripts the raw input at age, which raises
KeyError, so no ValidatedInput variant is returned. -/
theorem c2_default_then_keyerror : validate noJson [] c2Schema = none := rfl

/-- C3: the claim fails on the code: for a float field supplied the integer
5, the working copy is coerced to a float, but the type check inspects the
raw value, still an integer, and emits an invalid-type error, so the result
is the Errors variant rather than ValidatedInput with a float. -/
theorem c3_int_for_float_rejected :
    validate noJson c3Input c3Schema =
      some (RunResult.errors
        ["score should be <class \x27float\x27> type, not <class \x27int\x27>."]) := rfl

/-- C4: the claim fails on the code: for the required field age with no
default, absent from the input, only the missing-required message is ever
recorded, because the missing-default branch for required fields is
shadowed by the broader branch before it, and the call then raises KeyError
in the type-check loop instead of returning the Errors variant. -/
theorem c4_only_required_then_keyerror :
    (validateSt noJson [] c4Schema).errors = ["age is a required input."] ∧
    (validateSt noJson [] c4Schema).crashed = true ∧
    validate noJson [] c4Schema = none :=
  ⟨rfl, rfl, rfl⟩

/-- C5 counterexample: a schema whose single rule has both a type and a
required marker, and an input that supplies every required field (there are
none) with no unexpected key, on which validate nevertheless raises
KeyError and returns no ValidatedInput variant. -/
theorem c5_cex : validate noJson [] c5CexSchema = none := rfl

/-- C5 (amended): for every schema of structured rules each carrying a type
and a required marker, and every input that supplies every schema field
with a value of the declared runtime type meeting the declared constraint
when present, with no key outside the schema, validate returns the
ValidatedInput variant holding the input itself, which contains every
declared schema key. -/
theorem c5_amended (J : String → Option Value) (i : Input) (s : Schema)
    (h1 : ∀ kv ∈ s, cleanField i kv.1 kv.2)
    (h2 : ∀ kv ∈ i, containsA s kv.1 = true) :
    validate J i s = some (RunResult.ok i) ∧ ∀ kv ∈ s, containsA i kv.1 = true := by
  constructor
  · simp only [validate]
    rw [validateSt_clean J i s h1 h2]
    rfl
  · intro kv hm
    obtain ⟨r, t, x, _, _, _, hx, _, _⟩ := h1 kv hm
    rw [containsA, hx]
    rfl

/-- C5 witness: the amended theorem applied at a one-field schema and a
matching input. -/
theorem c5_amended_witness :
    validate noJson c5WInput c5WSchema = some (RunResult.ok c5WInput) ∧
    ∀ kv ∈ c5WSchema, containsA c5WInput kv.1 = true :=
  c5_amended noJson c5WInput c5WSchema
    (by intro kv hm
        simp only [c5WSchema, List.mem_singleton] at hm
        subst hm
        exact ⟨⟨some .tInt, some true, none, none⟩, .tInt, Value.int 5, rfl, rfl, rfl, rfl, rfl,
          fun p hp => by simp at hp⟩)
    (by intro kv hm
        simp only [c5WInput, List.mem_singleton] at hm
        subst hm
        rfl)

/-- C6 counterexample: a schema and input on which validate raises KeyError
and returns neither result variant, refuting the claim that it returns
exactly one variant for every schema and input. -/
theorem c6_cex : validate noJson [] c6CexSchema = none := rfl

/-- C6 (amended): whenever validate returns at all, that is, raises no
exception, it returns exactly one variant: the Errors variant exactly when
the collected error list is non-empty, and otherwise the ValidatedInput
variant holding the working copy. -/
theorem c6_amended (J : String → Option Value) (i : Input) (s : Schema) (r : RunResult)
    (h : validate J i s = some r) :
    ((validateSt J i s).errors ≠ [] → r = RunResult.errors (validateSt J i s).errors) ∧
    ((validateSt J i s).errors = [] → r = RunResult.ok (validateSt J i s).validated) := by
  simp only [validate] at h
  by_cases hc : (validateSt J i s).crashed = true
  · rw [if_pos hc] at h
    exact absurd h (by simp)
  · rw [Bool.not_eq_true] at hc
    rw [if_neg (by rw [hc]; exact Bool.false_ne_true)] at h
    by_cases hE : (validateSt J i s).errors.isEmpty = true
    · rw [if_pos hE] at h
      have hnil := List.isEmpty_iff.mp hE
      simp only [Option.some.injEq] at h
      exact ⟨fun hne => absurd hnil hne, fun _ => h.symm⟩
    · rw [if_neg hE] at h
      simp only [Option.some.injEq] at h
      exact ⟨fun _ => h.symm, fun hn => absurd (by rw [hn]; rfl) hE⟩

/-- C6 witness: the amended theorem applied at a concrete succeeding
call. -/
theorem c6_amended_witness :
    ((validateSt noJson c6WInput c6WSchema).errors ≠ [] →
      RunResult.ok c6WInput = RunResult.errors (validateSt noJson c6WInput c6WSchema).errors) ∧
    ((validateSt noJson c6WInput c6WSchema).errors = [] →
      RunResult.ok c6WInput = RunResult.ok (validateSt noJson c6WInput c6WSchema).validated) :=
  c6_amended noJson c6WInput c6WSchema (RunResult.ok c6WInput) (by rfl)

/-- C7 counterexample: with null supplied for field a and a constraint
rejecting null, validate returns the Errors variant with a constraint
message for a, so a null value does not bypass the constraint test. -/
theorem c7_cex :
    validate noJson c7Input c7Schema =
      some (RunResult.errors ["a does not meet the constraints."]) := rfl

/-- C7 (amended): a null value always skips the type test — the pass-4 step
never appends an invalid-type message for it — but the constraint predicate
is still evaluated on null, so the step appends either nothing or exactly
the constraint message for that key. -/
theorem c7_amended (st : St) (k : String) (e : Entry)
    (h : lookupA st.raw k = some Value.null) :
    (checkEntry st (k, e)).errors = st.errors ∨
    (checkEntry st (k, e)).errors = st.errors ++ [CONSTRAINTS_ERROR k] := by
  by_cases hc : st.crashed = true
  · left
    rw [checkEntry_sticky st (k, e) hc]
  · rw [Bool.not_eq_true] at hc
    cases e with
    | str s =>
        left
        simp [checkEntry, hc]
    | val v =>
        left
        simp [checkEntry, hc]
    | rule r =>
        cases ht : r.type? with
        | none =>
            left
            simp [checkEntry, hc, ht]
        | some t =>
            rw [checkEntry_rule_eq st k r t Value.null hc ht h, typeConstraintTail_errors,
              coercion_errors]
            simp only [Value.isNull, Bool.not_true, Bool.and_false]
            cases hcp : r.constraints? with
            | none =>
                left
                simp
            | some p =>
                by_cases hp : p Value.null = true
                · left
                  simp [hp]
                · right
                  simp [hp]

/-- C7 witness: the amended theorem applied at a concrete state carrying a
null raw value. -/
theorem c7_amended_witness :
    (checkEntry (initSt c7Input []) ("a", Entry.rule c7WRule)).errors =
      (initSt c7Input []).errors ∨
    (checkEntry (initSt c7Input []) ("a", Entry.rule c7WRule)).errors =
      (initSt c7Input []).errors ++ [CONSTRAINTS_ERROR "a"] :=
  c7_amended (initSt c7Input []) "a" (Entry.rule c7WRule) (by rfl)

/-- C8 counterexample: a float field supplied the integer 5 with the
constraint that the value be a float: under the claim the predicate would
receive the coerced float and succeed, yet validate reports a constraint
error for the field, because the predicate is applied to the raw integer. -/
theorem c8_cex :
    validate noJson c8Input c8Schema =
      some (RunResult.errors
        ["score should be <class \x27float\x27> type, not <class \x27int\x27>.",
         "score does not meet the constraints."]) := rfl

/-- C8 (amended): the constraint predicate is evaluated against the
original supplied value, not the coerced one: the pass-4 step appends the
invalid-type message exactly when the raw value fails the non-null type
test, and then the constraint message exactly when the predicate rejects
the raw value. -/
theorem c8_amended (st : St) (k : String) (r : Rule) (t : TypeTag) (p : Value → Bool)
    (x : Value) (hc : st.crashed = false) (ht : r.type? = some t)
    (hp : r.constraints? = some p) (hx : lookupA st.raw k = some x) :
    (checkEntry st (k, .rule r)).errors =
      st.errors
        ++ (if !(isInst x t) && !(x.isNull) then [INVALID_TYPE_ERROR k t x] else [])
        ++ (if p x then [] else [CONSTRAINTS_ERROR k]) := by
  rw [checkEntry_rule_eq st k r t x hc ht hx, typeConstraintTail_errors, coercion_errors, hp]

/-- C8 witness: the amended theorem applied at a concrete state carrying
the integer 5 for a float field with the is-a-float constraint. -/
theorem c8_amended_witness :
    (checkEntry (initSt c8Input []) ("score", Entry.rule c8WRule)).errors =
      (initSt c8Input []).errors
        ++ (if !(isInst (Value.int 5) .tFloat) && !((Value.int 5).isNull) then
              [INVALID_TYPE_ERROR "score" .tFloat (Value.int 5)] else [])
        ++ (if isFloatPred (Value.int 5) then [] else [CONSTRAINTS_ERROR "score"]) :=
  c8_amended (initSt c8Input []) "score" c8WRule .tFloat isFloatPred (Value.int 5)
    rfl rfl rfl rfl

/-- C9: idempotence holds: if validate succeeds with validated input v,
then validating v against the same schema succeeds again with the same v.
On the success path the working copy always equals the raw input, so the
second call repeats the first. -/
theorem c9_idempotent (J : String → Option Value) (i v : Input) (s : Schema)
    (h : validate J i s = some (RunResult.ok v)) :
    validate J v s = some (RunResult.ok v) := by
  obtain ⟨hc, he, hv⟩ := validate_ok_inv J i v s h
  have hvi : v = i := by
    rw [← hv, validateSt_ok_validated J i s hc he]
  subst hvi
  exact h

/-- C9 witness: the idempotence theorem applied at a concrete succeeding
call. -/
theorem c9_idempotent_witness :
    validate noJson c9Input c9Schema = some (RunResult.ok c9Input) :=
  c9_idempotent noJson c9Input c9Input c9Schema (by rfl)

/-- C10 counterexample: with the junk entry a preceding the serialized
entry b, json.loads raises TypeError at a, so the parsable entry b is never
replaced, refuting the claim for every schema entry. -/
theorem c10_cex :
    lookupA (validateSt dictJson [] c10CexSchema).schema "b" = some (Entry.str "x") := rfl

/-- C10 (amended): provided every schema entry is a dict or a string, so
that normalization raises no TypeError, every serialized entry whose string
parses is replaced in the schema object of the caller by the parsed value,
while the raw-input mapping is never mutated. -/
theorem c10_amended (J : String → Option Value) (i : Input) (s : Schema)
    (k str : String) (v : Value)
    (hnd : (s.map Prod.fst).Nodup)
    (hok : ∀ kv ∈ s, kv.2.normalizable = true)
    (hmem : (k, Entry.str str) ∈ s)
    (hj : J str = some v) :
    lookupA (validateSt J i s).schema k = some (Entry.val v) ∧
      (validateSt J i s).raw = i := by
  refine ⟨?_, validateSt_raw J i s⟩
  show lookupA (pass4 (pass3 (pass2 J (pass1 (initSt i s))))).schema k = some (Entry.val v)
  rw [pass4_schema, pass3_schema]
  have h1c : (pass1 (initSt i s)).crashed = false := by
    rw [pass1_crashed]
    rfl
  have h1s : (pass1 (initSt i s)).schema = s := by
    rw [pass1_schema]
    rfl
  unfold pass2
  rw [h1s]
  exact loop2_parses J s (pass1 (initSt i s)) k str v h1c hok hnd hmem hj

/-- C10 witness: the amended theorem applied at a one-entry serialized
schema with a parser returning the empty object. -/
theorem c10_amended_witness :
    lookupA (validateSt dictJson [] c10WSchema).schema "a" =
      some (Entry.val (Value.dict [])) ∧
    (validateSt dictJson [] c10WSchema).raw = [] :=
  c10_amended dictJson [] c10WSchema "a" "rule" (Value.dict [])
    (by simp [c10WSchema])
    (by intro kv hm
        simp only [c10WSchema, List.mem_singleton] at hm
        subst hm
        rfl)
    (by simp [c10WSchema])
    rfl

end RpValidator
